import Mathlib

/-!
Verification of the ASI Tiger serial motion-controller driver
(`olive/drivers/asi/tiger.py`) against its natural-language specification.

Python strings are modelled as `List Char`, byte strings as `List Nat`.
Every definition below is a direct shallow embedding of the corresponding
Python construct in the source file.
-/

/-- Convert a Lean string literal to the `List Char` representation used
throughout this development. -/
def str (s : String) : List Char := s.data

/-- Python `str.isspace` restricted to the ASCII range (the only range that
can appear after an `ascii` decode): tab, LF, VT, FF, CR, FS, GS, RS, US,
space. -/
def pyIsSpace (c : Char) : Bool :=
  c.toNat = 0x09 ∨ c.toNat = 0x0a ∨ c.toNat = 0x0b ∨ c.toNat = 0x0c ∨
  c.toNat = 0x0d ∨ c.toNat = 0x1c ∨ c.toNat = 0x1d ∨ c.toNat = 0x1e ∨
  c.toNat = 0x1f ∨ c.toNat = 0x20

/-- Python `str.lstrip()`: drop leading whitespace. -/
def pyLStrip (l : List Char) : List Char := l.dropWhile pyIsSpace

/-- Python `str.rstrip()`: drop trailing whitespace. -/
def pyRStrip (l : List Char) : List Char := (l.reverse.dropWhile pyIsSpace).reverse

/-- Python `str.strip()`: drop whitespace at both ends. -/
def pyStrip (l : List Char) : List Char := pyRStrip (pyLStrip l)

/-- Python `str.startswith(p)`. -/
def startsWith : List Char → List Char → Bool
  | [], _ => true
  | _ :: _, [] => false
  | p :: ps, c :: cs => p == c && startsWith ps cs

/-- Python `str.split(sep)` for a single-character separator: split on every
occurrence, keeping empty segments (`"".split(c) == [""]`). -/
def splitChar (sep : Char) : List Char → List (List Char)
  | [] => [[]]
  | c :: rest =>
    match splitChar sep rest with
    | [] => [[]]
    | g :: gs => if c = sep then [] :: g :: gs else (c :: g) :: gs

/-- Python `str.split(sep, maxsplit=1)` for a single-character separator. -/
def splitOnce (sep : Char) : List Char → List (List Char)
  | [] => [[]]
  | c :: rest =>
    if c = sep then [[], rest]
    else
      match splitOnce sep rest with
      | [] => [[]]
      | g :: gs => (c :: g) :: gs

/-- Python `sep.join(parts)`. -/
def pyJoin (sep : List Char) : List (List Char) → List Char
  | [] => []
  | [x] => x
  | x :: y :: rest => x ++ sep ++ pyJoin sep (y :: rest)

/-- Digit-sequence tail of Python `int(...)` literal parsing: after an
initial digit has been consumed into `acc`, accept further digits with
single underscores allowed only between digits. -/
def goDigits (acc : Nat) : List Char → Option Nat
  | [] => some acc
  | [c] => if c.isDigit then some (acc * 10 + (c.toNat - 48)) else none
  | c :: c2 :: rest =>
    if c.isDigit then goDigits (acc * 10 + (c.toNat - 48)) (c2 :: rest)
    else if c = '_' then
      if c2.isDigit then goDigits (acc * 10 + (c2.toNat - 48)) rest else none
    else none

/-- Unsigned digit run of Python `int(...)`: non-empty, starts with a digit,
single underscores only between digits. -/
def parseUDigits : List Char → Option Nat
  | [] => none
  | c :: rest => if c.isDigit then goDigits (c.toNat - 48) rest else none

/-- Python `int(s)` on an ASCII string: strip whitespace, optional sign,
then a digit run; `none` models the `ValueError` raised on anything else. -/
def pyInt (s : List Char) : Option Int :=
  match pyStrip s with
  | '+' :: rest => (parseUDigits rest).map Int.ofNat
  | '-' :: rest => (parseUDigits rest).map (fun n => -(n : Int))
  | t => (parseUDigits t).map Int.ofNat

/-- Python `bytes.decode("ascii")`: succeeds exactly when every byte is
below 128; `none` models `UnicodeDecodeError`. -/
def decodeAscii : List Nat → Option (List Char)
  | [] => some []
  | b :: bs =>
    if b < 128 then (decodeAscii bs).map (fun cs => Char.ofNat b :: cs)
    else none

/-- `response.replace(b"\r", b"\n")` at the byte level. -/
def replaceCR (bs : List Nat) : List Nat :=
  bs.map (fun b => if b = 13 then 10 else b)

/-- UTF-8 encoding of a single character (Python `str.encode()` default). -/
def utf8Bytes (c : Char) : List Nat :=
  let n := c.toNat
  if n < 0x80 then [n]
  else if n < 0x800 then [0xC0 ||| (n >>> 6), 0x80 ||| (n &&& 0x3F)]
  else if n < 0x10000 then
    [0xE0 ||| (n >>> 12), 0x80 ||| ((n >>> 6) &&& 0x3F), 0x80 ||| (n &&& 0x3F)]
  else
    [0xF0 ||| (n >>> 18), 0x80 ||| ((n >>> 12) &&& 0x3F),
     0x80 ||| ((n >>> 6) &&& 0x3F), 0x80 ||| (n &&& 0x3F)]

/-- Python `str.encode()` (UTF-8) over the `List Char` model. -/
def pyEncode (s : List Char) : List Nat := (s.map utf8Bytes).flatten

/-! ## Error taxonomy and `interpret_error` -/

/-- Exception classes raised by `ASISerialCommandController.interpret_error`. -/
inductive PyErrClass where
  | unknownCommandError
  | unrecognizedAxisError
  | missingParameterError
  | outOfRangeError
  | runtimeError
  | invalidCardAddressError
  | haltError
  | unknownError
deriving DecidableEq, Repr

/-- A raised Python exception: its class together with its message. -/
structure PyException where
  klass : PyErrClass
  msg : List Char
deriving DecidableEq, Repr

/-- `ASISerialCommandController.interpret_error`: the fixed numeric
error-code mapping; every unmapped code yields `UnknownError` carrying the
raw code in the message. The dictionary `.get` with a default is modelled
as an if-chain. -/
def interpret_error (errno : Int) : PyException :=
  if errno = 1 then ⟨.unknownCommandError, []⟩
  else if errno = 2 then ⟨.unrecognizedAxisError, []⟩
  else if errno = 3 then ⟨.missingParameterError, []⟩
  else if errno = 4 then ⟨.outOfRangeError, []⟩
  else if errno = 5 then ⟨.runtimeError, str "operation failed"⟩
  else if errno = 6 then ⟨.runtimeError, str "undefined error"⟩
  else if errno = 7 then ⟨.invalidCardAddressError, []⟩
  else if errno = 21 then ⟨.haltError, []⟩
  else ⟨.unknownError, str "errno=" ++ (toString errno).data⟩

/-! ## Response parsing: `_check_error` -/

/-- Outcome of `ASISerialCommandController._check_error` on a received byte
sequence. `unhandled` marks a Python exception that is not part of the
protocol contract (`UnicodeDecodeError` from `decode("ascii")`, or
`ValueError` from `int(...)`). -/
inductive ParseOutcome where
  | payload (s : List Char)
  | semError (e : PyException)
  | info (s : List Char)
  | unhandled
deriving DecidableEq, Repr

/-- `ASISerialCommandController._check_error`: replace CR with LF, decode
as ASCII, strip trailing whitespace; `:N` responses feed the characters
after position 3 to `int` and raise the mapped error, `:A` responses return
the characters after position 3, anything else is returned verbatim. -/
def check_error (bs : List Nat) : ParseOutcome :=
  match decodeAscii (replaceCR bs) with
  | none => .unhandled
  | some s =>
    let r := pyRStrip s
    if startsWith (str ":N") r then
      match pyInt (r.drop 3) with
      | none => .unhandled
      | some errno => .semError (interpret_error errno)
    else if startsWith (str ":A") r then .payload (r.drop 3)
    else .info r

/-! ## Command formatting: `send_cmd` steps 1-4 -/

/-- The request bytes produced by `ASISerialCommandController.send_cmd`:
stringified positional arguments, keyword arguments rendered `k=v`, joined
by single spaces, suffixed with a carriage return, and encoded
(Python `str.encode()`, i.e. UTF-8). -/
def send_cmd_bytes (args : List (List Char)) (kwargs : List (List Char × List Char)) :
    List Nat :=
  pyEncode (pyJoin [' '] (args ++ kwargs.map (fun kv => kv.1 ++ '=' :: kv.2)) ++ ['\r'])

/-- Modelled from the spec: the deterministic join-and-terminate rule of
section 4.2 — positional tokens as-is, named tokens as `KEY=VALUE`, all
joined with single spaces, suffixed by one carriage return, encoded as
ASCII bytes (each character's code point). -/
def format_spec (args : List (List Char)) (kwargs : List (List Char × List Char)) :
    List Nat :=
  (pyJoin [' '] (args ++ kwargs.map (fun kv => kv.1 ++ '=' :: kv.2)) ++ ['\r']).map
    Char.toNat

/-! ## Status poll: `is_busy` -/

/-- `ASISerialCommandController.is_busy`: after writing `b"/\r"` the
response bytes are read up to CRLF and `response[0] == ord("B")` is
returned; `none` models the `IndexError` on an empty response. -/
def is_busy (response : List Nat) : Option Bool :=
  match response with
  | [] => none
  | b :: _ => some (b == 66)

/-! ## Card-table parsing: `Tiger._get_cards` -/

/-- One parsed card entry (the dict appended by `_get_cards`). -/
structure Card where
  address : Int
  function : List Char
  version : List Char
  character : List Char
deriving DecidableEq, Repr

/-- Parse one line of the card-listing response, as the body of the
`for` loop in `Tiger._get_cards` does: split on the first colon (a missing
colon fails the tuple unpacking), parse the pre-colon segment minus its
first three characters as an integer, strip the remainder and split it on
single spaces into function, version, character and ignored options.
`none` models the `ValueError` escaping the loop. -/
def parse_card_line (line : List Char) : Option Card :=
  match splitOnce ':' line with
  | [addrPart, rest] =>
    match pyInt (addrPart.drop 3) with
    | none => none
    | some addr =>
      match splitChar ' ' (pyStrip rest) with
      | f :: v :: c :: _ => some ⟨addr, f, v, c⟩
      | _ => none
  | _ => none

/-- The whole loop of `Tiger._get_cards`: parse the lines in order, the
first failure aborting the whole parse with nothing retained. -/
def parse_cards : List (List Char) → Option (List Card)
  | [] => some []
  | l :: ls =>
    match parse_card_line l with
    | none => none
    | some c =>
      match parse_cards ls with
      | none => none
      | some cs => some (c :: cs)

/-- `Tiger._get_cards` on a response string: split on newlines and parse
every line. -/
def get_cards (response : List Char) : Option (List Card) :=
  parse_cards (splitChar '\n' response)

/-! ## Axis motion commands -/

/-- The command sent by `ASIAxis.set_absolute_position`: positional token
`"M"` and the scaled position (`pos *= 1000 * 10`) keyed by the axis
identifier. -/
def set_absolute_position_cmd (axis : List Char) (pos : Int) :
    List (List Char) × List (List Char × Int) :=
  ([str "M"], [(axis, pos * (1000 * 10))])

/-- The command sent by `ASIAxis.set_relative_position`: positional token
`"R"` and the scaled position keyed by the axis identifier. -/
def set_relative_position_cmd (axis : List Char) (pos : Int) :
    List (List Char) × List (List Char × Int) :=
  ([str "R"], [(axis, pos * (1000 * 10))])

/-! ## Device lifecycle state -/

/-- `olive.core.DeviceInfo` as used here: vendor, model, optional version. -/
structure DeviceInfo where
  vendor : List Char
  model : List Char
  version : Option (List Char)
deriving DecidableEq, Repr

/-- Observable state of an `ASISerialCommandController`: whether the serial
handle is open (`handle.is_open`) and the `_info` field. -/
structure CtrlState where
  handleOpen : Bool
  info : Option DeviceInfo
deriving DecidableEq, Repr

/-- The controller before `open()`: handle closed, `_info is None`. -/
def ctrl_init : CtrlState := ⟨false, none⟩

/-- `ASISerialCommandController.is_opened`: `return self.handle.is_open`. -/
def ctrl_is_opened (s : CtrlState) : Bool := s.handleOpen

/-- Final state of `ASISerialCommandController._open` when the two
identification commands return `model` and `version`. -/
def ctrl_open_final (model version : List Char) : CtrlState :=
  ⟨true, some ⟨str "ASI", model, some version⟩⟩

/-- The successive states of `ASISerialCommandController._open`, one per
statement: initial; after `handle.open` (held through the two `send_cmd`
identification calls, which do not change this state); after `_info` is
assigned. -/
def ctrl_open_trace (s : CtrlState) (model version : List Char) : List CtrlState :=
  [s, ⟨true, s.info⟩, ctrl_open_final model version]

/-- Final state of `ASISerialCommandController._close`: `_info` cleared,
handle closed. -/
def ctrl_close_final (_ : CtrlState) : CtrlState := ⟨false, none⟩

/-- The successive states of `_close`: initial; after `_info = None`; after
`handle.close`. -/
def ctrl_close_trace (s : CtrlState) : List CtrlState :=
  [s, ⟨s.handleOpen, none⟩, ctrl_close_final s]

/-- Observable state of an `ASIAxis`: only its `_info` field. -/
structure AxisState where
  info : Option DeviceInfo
deriving DecidableEq, Repr

/-- `ASIAxis._open`: `_info = DeviceInfo(vendor="ASI", model=self.axis)`. -/
def axis_open (axis : List Char) (_ : AxisState) : AxisState :=
  ⟨some ⟨str "ASI", axis, none⟩⟩

/-- `ASIAxis._close`: `_info = None`. -/
def axis_close (_ : AxisState) : AxisState := ⟨none⟩

/-- `ASIAxis.is_opened`: `return self.info is not None`. -/
def axis_is_opened (s : AxisState) : Bool := s.info.isSome

/-! ## Concurrency model for `send_cmd` -/

/-- Atomic actions on the shared serial link performed by one caller,
tagged with the caller's thread id. `send_cmd` performs no lock
acquisition or release, so these are its only link actions. -/
inductive LinkAction where
  | write (tid : Nat)
  | readResp (tid : Nat)
deriving DecidableEq, Repr

/-- The sequence of link actions one call of
`ASISerialCommandController.send_cmd` performs: `handle.write(cmd)` then
`handle.read_until(b"\r\n")` inside `_check_error` — with no acquisition of
the `trio.StrictFIFOLock` created in `__init__`, which `send_cmd` never
touches. -/
def send_cmd_actions (tid : Nat) : List LinkAction :=
  [.write tid, .readResp tid]

/-- `Interleaving xs ys zs`: `zs` is a schedule obtained by interleaving
the two callers' action sequences `xs` and `ys`, preserving each caller's
program order — exactly the schedules the runtime may produce when nothing
serializes the two callers. -/
inductive Interleaving : List LinkAction → List LinkAction → List LinkAction → Prop where
  | nil : Interleaving [] [] []
  | left {x : LinkAction} {xs ys zs : List LinkAction} :
      Interleaving xs ys zs → Interleaving (x :: xs) ys (x :: zs)
  | right {y : LinkAction} {xs ys zs : List LinkAction} :
      Interleaving xs ys zs → Interleaving xs (y :: ys) (y :: zs)

/-! ## Well-formed card-listing lines -/

/-- The components of one correctly formatted card-listing line
`<pfx><address>:<function> <version> <character> [<options...>]`:
a three-character prefix, the address digits (as written and as a number),
then the three mandatory fields and optional trailing fields. -/
structure LineSpec where
  pfx : List Char
  addrStr : List Char
  addr : Int
  func : List Char
  ver : List Char
  ch : List Char
  opts : List (List Char)
deriving DecidableEq, Repr

/-- Render trailing optional fields, each preceded by one space. -/
def renderOpts : List (List Char) → List Char
  | [] => []
  | o :: os => ' ' :: (o ++ renderOpts os)

/-- Render one card-listing line from its components. -/
def renderLine (L : LineSpec) : List Char :=
  (L.pfx ++ L.addrStr) ++
    ':' :: (L.func ++ ' ' :: (L.ver ++ ' ' :: (L.ch ++ renderOpts L.opts)))

/-- A field token is non-empty and free of whitespace. -/
def goodField (f : List Char) : Prop :=
  f ≠ [] ∧ ∀ c ∈ f, pyIsSpace c = false

/-- Correct formatting of a card-listing line: the prefix has exactly three
characters, neither prefix nor address part contains a colon or newline,
the address part is a valid integer literal denoting `addr`, and every
field token is non-empty and whitespace-free. -/
def wellFormedLine (L : LineSpec) : Prop :=
  L.pfx.length = 3 ∧ ':' ∉ L.pfx ∧ '\n' ∉ L.pfx ∧ ':' ∉ L.addrStr ∧
  '\n' ∉ L.addrStr ∧ pyInt L.addrStr = some L.addr ∧ goodField L.func ∧
  goodField L.ver ∧ goodField L.ch ∧ ∀ o ∈ L.opts, goodField o

instance goodField.instDecidable (f : List Char) : Decidable (goodField f) := by
  unfold goodField
  infer_instance

instance wellFormedLine.instDecidable (L : LineSpec) : Decidable (wellFormedLine L) := by
  unfold wellFormedLine
  infer_instance

/-- The Card entry a well-formed line denotes. -/
def lineCard (L : LineSpec) : Card := ⟨L.addr, L.func, L.ver, L.ch⟩

/-- A concrete well-formed card-listing line (an XY-scan card at address 1). -/
def sample_line1 : LineSpec :=
  ⟨str "At ", str "1", 1, str "XYM", str "9.2l", str "SCAN_XY_LED", []⟩

/-- A concrete well-formed card-listing line with a trailing option (a
Z-focus card at address 3). -/
def sample_line2 : LineSpec :=
  ⟨str "At ", str "3", 3, str "ZM", str "9.2l", str "STD_ZF", [str "O1"]⟩

/-! ## Theorems for the easier claims -/

/-- Claim C5: `interpret_error` is a total, stable pure function on
integers: 1 maps to unknown-command, 2 to unrecognized-axis, 3 to
missing-parameter, 4 to out-of-range, 5 to operation-failed, 6 to
undefined-error, 7 to invalid-card-address, 21 to halt-error, and every
other integer maps to the unknown-error kind carrying the raw code; being a
Lean function, the mapping never fails on any integer input. -/
theorem c5_interpret_error_total_stable :
    interpret_error 1 = ⟨.unknownCommandError, []⟩ ∧
    interpret_error 2 = ⟨.unrecognizedAxisError, []⟩ ∧
    interpret_error 3 = ⟨.missingParameterError, []⟩ ∧
    interpret_error 4 = ⟨.outOfRangeError, []⟩ ∧
    interpret_error 5 = ⟨.runtimeError, str "operation failed"⟩ ∧
    interpret_error 6 = ⟨.runtimeError, str "undefined error"⟩ ∧
    interpret_error 7 = ⟨.invalidCardAddressError, []⟩ ∧
    interpret_error 21 = ⟨.haltError, []⟩ ∧
    ∀ n : Int, n ∉ ([1, 2, 3, 4, 5, 6, 7, 21] : List Int) →
      interpret_error n = ⟨.unknownError, str "errno=" ++ (toString n).data⟩ := by
  refine ⟨by decide, by decide, by decide, by decide, by decide, by decide, by decide,
    by decide, ?_⟩
  intro n hn
  simp only [List.mem_cons, List.not_mem_nil, or_false] at hn
  push_neg at hn
  obtain ⟨h1, h2, h3, h4, h5, h6, h7, h21⟩ := hn
  simp [interpret_error, h1, h2, h3, h4, h5, h6, h7, h21]

/-- Half-open witness for C5: the unmapped code 42 indeed yields the
unknown-error kind carrying the raw code. -/
theorem c5_witness :
    (42 : Int) ∉ ([1, 2, 3, 4, 5, 6, 7, 21] : List Int) ∧
    interpret_error 42 = ⟨.unknownError, str "errno=42"⟩ := by
  refine ⟨by decide, ?_⟩
  have h := c5_interpret_error_total_stable.2.2.2.2.2.2.2.2 42 (by decide)
  rw [h]
  decide

/-- Claim C9: `is_busy` reports busy exactly when the response's first byte
is `B` (66), and idle for every other leading byte. -/
theorem c9_is_busy_first_byte (b : Nat) (rest : List Nat) :
    is_busy (b :: rest) = some (b == 66) ∧
    (is_busy (b :: rest) = some true ↔ b = 66) := by
  refine ⟨rfl, ?_⟩
  simp [is_busy]

/-- Witness for C9: a leading `B` is busy, a leading `N` is idle. -/
theorem c9_witness :
    is_busy [66, 13, 10] = some true ∧ is_busy [78, 13, 10] = some false := by
  constructor
  · exact (c9_is_busy_first_byte 66 [13, 10]).2.mpr rfl
  · have h := (c9_is_busy_first_byte 78 [13, 10]).1
    simpa using h

/-- Claim C8: position unit conversion is linear at a fixed factor of
10,000 controller units per stage unit, for both absolute and relative
moves; in particular absolute 5 sends 50000 and relative -2 sends -20000,
keyed by the axis identifier. -/
theorem c8_position_scale (axis : List Char) (pos : Int) :
    set_absolute_position_cmd axis pos = ([str "M"], [(axis, pos * 10000)]) ∧
    set_relative_position_cmd axis pos = ([str "R"], [(axis, pos * 10000)]) ∧
    (set_absolute_position_cmd axis 5).2 = [(axis, 50000)] ∧
    (set_relative_position_cmd axis (-2)).2 = [(axis, -20000)] := by
  refine ⟨?_, ?_, ?_, ?_⟩ <;>
    simp [set_absolute_position_cmd, set_relative_position_cmd]

/-- Claim C1 (refuting schedule): `send_cmd` takes no lock, so the two
callers' write/read pairs can interleave: the schedule
`write 1, write 2, read 1, read 2` is a legal interleaving of two
`send_cmd` executions, and it is not one of the two serialized orders that
a lock-held critical section would require. -/
theorem c1_send_cmd_unserialized :
    Interleaving (send_cmd_actions 1) (send_cmd_actions 2)
      [.write 1, .write 2, .readResp 1, .readResp 2] ∧
    [LinkAction.write 1, .write 2, .readResp 1, .readResp 2] ≠
      send_cmd_actions 1 ++ send_cmd_actions 2 ∧
    [LinkAction.write 1, .write 2, .readResp 1, .readResp 2] ≠
      send_cmd_actions 2 ++ send_cmd_actions 1 := by
  refine ⟨?_, by decide, by decide⟩
  exact .left (.right (.left (.right .nil)))

/-- Claim C3 (counterexample): in the state reached after
`ASISerialCommandController._open` has opened the serial handle but before
`_info` is assigned (position 1 of the open trace), `is_opened` is true
while `DeviceInfo` is absent, so "is_opened iff DeviceInfo present" fails
at that point. -/
theorem c3_counterexample :
    (ctrl_open_trace ctrl_init (str "TIGER_COMM") (str "3.40")).get? 1 =
      some ⟨true, none⟩ ∧
    ctrl_is_opened ⟨true, none⟩ ≠ (⟨true, none⟩ : CtrlState).info.isSome := by
  exact ⟨rfl, by decide⟩

/-- Claim C3 (amended): the axis `is_opened` is exactly "its DeviceInfo is
present" at every state, with DeviceInfo set by open and cleared by close;
the controller's `is_opened` instead reports the serial handle's open flag,
which agrees with DeviceInfo presence in the resting states after a
completed open (both true) and after a completed close (both false). -/
theorem c3_amended_open_identity :
    (∀ s : AxisState, axis_is_opened s = s.info.isSome) ∧
    (∀ ax s, (axis_open ax s).info.isSome = true ∧ (axis_close s).info = none) ∧
    (∀ s : CtrlState, ctrl_is_opened s = s.handleOpen) ∧
    (∀ m v, ctrl_is_opened (ctrl_open_final m v) = true ∧
      (ctrl_open_final m v).info.isSome = true) ∧
    (∀ s, ctrl_is_opened (ctrl_close_final s) = false ∧
      (ctrl_close_final s).info = none) :=
  ⟨fun _ => rfl, fun _ _ => ⟨rfl, rfl⟩, fun _ => rfl, fun _ _ => ⟨rfl, rfl⟩,
    fun _ => ⟨rfl, rfl⟩⟩

/-- Claim C2 (counterexample): the byte sequence `":N\r\n"` ends in CRLF,
yet `_check_error` reaches `int("")`, an unhandled `ValueError` — not a
payload, not a mapped error, not an informational string. -/
theorem c2_counterexample :
    [58, 78, 13, 10] = [58, 78] ++ [13, 10] ∧
    check_error [58, 78, 13, 10] = ParseOutcome.unhandled := by
  exact ⟨rfl, by decide⟩

/-- Claim C2 (amended): response parsing is total on every byte sequence
ending in CRLF that decodes as ASCII and whose stripped form, when it
starts with `:N`, carries a valid integer literal after the third
character: the result is a payload, a mapped semantic error, or the
informational string — never an unhandled exception. (Outside this domain
`_check_error` dies with `UnicodeDecodeError` or `ValueError`.) -/
theorem c2_amended_parse_total (bs : List Nat) (s : List Char)
    (_hcrlf : ∃ pre, bs = pre ++ [13, 10])
    (hdec : decodeAscii (replaceCR bs) = some s)
    (hN : startsWith (str ":N") (pyRStrip s) = true →
      (pyInt ((pyRStrip s).drop 3)).isSome = true) :
    (∃ p, check_error bs = .payload p) ∨ (∃ e, check_error bs = .semError e) ∨
    (∃ i, check_error bs = .info i) := by
  unfold check_error
  rw [hdec]
  by_cases hn : startsWith (str ":N") (pyRStrip s) = true
  · obtain ⟨errno, he⟩ := Option.isSome_iff_exists.mp (hN hn)
    exact Or.inr (Or.inl ⟨interpret_error errno, by simp [hn, he]⟩)
  · by_cases ha : startsWith (str ":A") (pyRStrip s) = true
    · exact Or.inl ⟨(pyRStrip s).drop 3, by simp [hn, ha]⟩
    · exact Or.inr (Or.inr ⟨pyRStrip s, by simp [hn, ha]⟩)

/-- Witness for the amended C2: the well-formed error response `":N 4\r\n"`
satisfies every hypothesis and parses to a mapped semantic error. -/
theorem c2_amended_witness :
    decodeAscii (replaceCR [58, 78, 32, 52, 13, 10]) = some (str ":N 4\n\n") ∧
    ((∃ p, check_error [58, 78, 32, 52, 13, 10] = .payload p) ∨
     (∃ e, check_error [58, 78, 32, 52, 13, 10] = .semError e) ∨
     (∃ i, check_error [58, 78, 32, 52, 13, 10] = .info i)) := by
  refine ⟨by decide, ?_⟩
  exact c2_amended_parse_total [58, 78, 32, 52, 13, 10] (str ":N 4\n\n")
    ⟨[58, 78, 32, 52], rfl⟩ (by decide) (by decide)

/-- Unfolding equation for `parse_card_line` once the first-colon split is
known. -/
theorem parse_card_line_eq (line a rest : List Char)
    (hsplit : splitOnce ':' line = [a, rest]) :
    parse_card_line line =
      match pyInt (a.drop 3) with
      | none => none
      | some addr =>
        match splitChar ' ' (pyStrip rest) with
        | f :: v :: c :: _ => some ⟨addr, f, v, c⟩
        | _ => none := by
  unfold parse_card_line
  rw [hsplit]

/-- Claim C10: for every card-listing line containing a colon, the parsed
address is exactly Python `int` applied to the pre-colon segment with its
first three characters discarded; when that parse fails the whole
enumeration of that line fails. -/
theorem c10_address_recovery (line a rest : List Char)
    (hsplit : splitOnce ':' line = [a, rest]) :
    (∀ card, parse_card_line line = some card →
      pyInt (a.drop 3) = some card.address) ∧
    (pyInt (a.drop 3) = none → parse_card_line line = none) := by
  constructor
  · intro card hc
    rw [parse_card_line_eq line a rest hsplit] at hc
    cases h : pyInt (a.drop 3) with
    | none => rw [h] at hc; exact absurd hc (by simp)
    | some addr =>
      rw [h] at hc
      cases hs : splitChar ' ' (pyStrip rest) with
      | nil => rw [hs] at hc; exact absurd hc (by simp)
      | cons f t1 =>
        cases t1 with
        | nil => rw [hs] at hc; exact absurd hc (by simp)
        | cons v t2 =>
          cases t2 with
          | nil => rw [hs] at hc; exact absurd hc (by simp)
          | cons ch t3 =>
            rw [hs] at hc
            simp only [Option.some.injEq] at hc
            rw [← hc]
  · intro h
    rw [parse_card_line_eq line a rest hsplit, h]

/-- Witness for C10: the line `"XX42:f v c"` has a two-character prefix
before its digits, so the recovered address is `2`, not the `42` written on
the line. -/
theorem c10_witness :
    splitOnce ':' (str "XX42:f v c") = [str "XX42", str "f v c"] ∧
    parse_card_line (str "XX42:f v c") = some ⟨2, str "f", str "v", str "c"⟩ ∧
    pyInt ((str "XX42").drop 3) = some 2 ∧ (2 : Int) ≠ 42 := by
  refine ⟨by decide, by decide, ?_, by decide⟩
  exact (c10_address_recovery (str "XX42:f v c") (str "XX42") (str "f v c")
    (by decide)).1 ⟨2, str "f", str "v", str "c"⟩ (by decide)

/-! ## Encoding lemmas and claim C4 -/

/-- On ASCII characters, UTF-8 encoding is the single code-point byte. -/
theorem utf8Bytes_ascii {c : Char} (h : c.toNat < 128) : utf8Bytes c = [c.toNat] := by
  simp only [utf8Bytes]
  rw [if_pos h]

/-- On all-ASCII strings, Python `str.encode()` yields the code points. -/
theorem pyEncode_ascii {l : List Char} (h : ∀ c ∈ l, c.toNat < 128) :
    pyEncode l = l.map Char.toNat := by
  induction l with
  | nil => rfl
  | cons c cs ih =>
    have hc : c.toNat < 128 := h c (List.mem_cons_self c cs)
    have hcs : ∀ x ∈ cs, x.toNat < 128 := fun x hx => h x (List.mem_cons_of_mem c hx)
    simp only [pyEncode, List.map_cons, List.flatten_cons] at *
    rw [utf8Bytes_ascii hc, ih hcs]
    rfl

/-- Every character of a joined string is either a separator character or a
character of one of the parts. -/
theorem mem_pyJoin (c : Char) (sep : List Char) :
    ∀ parts, c ∈ pyJoin sep parts → c ∈ sep ∨ ∃ p ∈ parts, c ∈ p
  | [], h => by simp [pyJoin] at h
  | [x], h => Or.inr ⟨x, by simp, h⟩
  | x :: y :: rest, h => by
    simp only [pyJoin, List.append_assoc, List.mem_append] at h
    rcases h with hx | hs | hr
    · exact Or.inr ⟨x, by simp, hx⟩
    · exact Or.inl hs
    · rcases mem_pyJoin c sep (y :: rest) hr with hs | ⟨p, hp, hcp⟩
      · exact Or.inl hs
      · exact Or.inr ⟨p, List.mem_cons_of_mem x hp, hcp⟩

/-- Claim C4: command formatting is pure and deterministic: for every
sequence of positional tokens and mapping of named tokens (all within
ASCII, which is all `encode` may produce for the claim's "ASCII bytes"),
the encoded command equals the spec's join-and-terminate rule — positional
tokens as-is, named tokens as `KEY=VALUE`, joined by single spaces,
suffixed with one carriage return, encoded as ASCII bytes; in particular
`["M"]` with `{X: 5000}` yields the bytes of `"M X=5000\r"`. -/
theorem c4_format_refines_spec (args : List (List Char))
    (kwargs : List (List Char × List Char))
    (h1 : ∀ t ∈ args, ∀ c ∈ t, c.toNat < 128)
    (h2 : ∀ kv ∈ kwargs, (∀ c ∈ kv.1, c.toNat < 128) ∧ (∀ c ∈ kv.2, c.toNat < 128)) :
    send_cmd_bytes args kwargs = format_spec args kwargs ∧
    send_cmd_bytes [str "M"] [(str "X", str "5000")] =
      (str "M X=5000\r").map Char.toNat := by
  refine ⟨?_, by decide⟩
  unfold send_cmd_bytes format_spec
  apply pyEncode_ascii
  intro c hc
  rcases List.mem_append.mp hc with hj | hr
  · rcases mem_pyJoin c [' '] _ hj with hs | ⟨p, hp, hcp⟩
    · simp only [List.mem_singleton] at hs
      subst hs
      decide
    · rcases List.mem_append.mp hp with hp | hp
      · exact h1 p hp c hcp
      · obtain ⟨kv, hkv, rfl⟩ := List.mem_map.mp hp
        rcases List.mem_append.mp hcp with h | h
        · exact (h2 kv hkv).1 c h
        · rcases List.mem_cons.mp h with rfl | h
          · decide
          · exact (h2 kv hkv).2 c h
  · simp only [List.mem_singleton] at hr
    subst hr
    decide

/-- Witness for C4: the concrete example with all hypotheses discharged. -/
theorem c4_witness :
    send_cmd_bytes [str "M"] [(str "X", str "5000")] =
      format_spec [str "M"] [(str "X", str "5000")] ∧
    format_spec [str "M"] [(str "X", str "5000")] =
      (str "M X=5000\r").map Char.toNat :=
  ⟨(c4_format_refines_spec [str "M"] [(str "X", str "5000")]
      (by decide) (by decide)).1, by decide⟩

/-! ## Split and strip lemmas for card-table parsing -/

/-- A separator-free string is not split by `splitOnce`. -/
theorem splitOnce_of_not_mem {sep : Char} {l : List Char} (h : sep ∉ l) :
    splitOnce sep l = [l] := by
  induction l with
  | nil => rfl
  | cons c rest ih =>
    have hc : ¬ c = sep := fun e => h (e ▸ List.mem_cons_self c rest)
    have hr : sep ∉ rest := fun m => h (List.mem_cons_of_mem c m)
    simp only [splitOnce, if_neg hc, ih hr]

/-- `splitOnce` cuts at the first separator. -/
theorem splitOnce_append {sep : Char} {a b : List Char} (h : sep ∉ a) :
    splitOnce sep (a ++ sep :: b) = [a, b] := by
  induction a with
  | nil => simp [splitOnce]
  | cons c rest ih =>
    have hc : ¬ c = sep := fun e => h (e ▸ List.mem_cons_self c rest)
    have hr : sep ∉ rest := fun m => h (List.mem_cons_of_mem c m)
    simp only [List.cons_append, splitOnce, if_neg hc, List.append_eq, ih hr]

/-- `splitChar` never returns the empty list of segments. -/
theorem splitChar_ne_nil (sep : Char) (l : List Char) : splitChar sep l ≠ [] := by
  cases l with
  | nil => simp [splitChar]
  | cons c rest =>
    simp only [splitChar]
    cases h : splitChar sep rest with
    | nil => simp
    | cons g gs =>
      by_cases hc : c = sep <;> simp [hc]

/-- A separator-free string is a single `splitChar` segment. -/
theorem splitChar_of_not_mem {sep : Char} {l : List Char} (h : sep ∉ l) :
    splitChar sep l = [l] := by
  induction l with
  | nil => rfl
  | cons c rest ih =>
    have hc : ¬ c = sep := fun e => h (e ▸ List.mem_cons_self c rest)
    have hr : sep ∉ rest := fun m => h (List.mem_cons_of_mem c m)
    simp only [splitChar, ih hr, if_neg hc]

/-- `splitChar` peels off a leading separator-free segment. -/
theorem splitChar_append {sep : Char} {a b : List Char} (h : sep ∉ a) :
    splitChar sep (a ++ sep :: b) = a :: splitChar sep b := by
  induction a with
  | nil =>
    simp only [List.nil_append, splitChar]
    cases hb : splitChar sep b with
    | nil => exact absurd hb (splitChar_ne_nil sep b)
    | cons g gs => simp
  | cons c rest ih =>
    have hc : ¬ c = sep := fun e => h (e ▸ List.mem_cons_self c rest)
    have hr : sep ∉ rest := fun m => h (List.mem_cons_of_mem c m)
    simp only [List.cons_append, splitChar, List.append_eq, ih hr, if_neg hc]

/-- Splitting a separator-joined list of separator-free parts recovers the
parts. -/
theorem splitChar_pyJoin {sep : Char} :
    ∀ parts : List (List Char), parts ≠ [] → (∀ p ∈ parts, sep ∉ p) →
      splitChar sep (pyJoin [sep] parts) = parts
  | [], h, _ => absurd rfl h
  | [x], _, hp => by
    simp only [pyJoin]
    exact splitChar_of_not_mem (hp x (List.mem_cons_self x []))
  | x :: y :: rest, _, hp => by
    have hx : sep ∉ x := hp x (List.mem_cons_self x (y :: rest))
    have hjoin : pyJoin [sep] (x :: y :: rest) = x ++ sep :: pyJoin [sep] (y :: rest) := by
      simp [pyJoin]
    rw [hjoin, splitChar_append hx,
      splitChar_pyJoin (y :: rest) (by simp)
        (fun p h => hp p (List.mem_cons_of_mem x h))]

/-- `pyLStrip` is the identity on a string whose first character is not
whitespace. -/
theorem pyLStrip_eq_self {l : List Char}
    (h : ∀ x, l.head? = some x → pyIsSpace x = false) : pyLStrip l = l := by
  cases l with
  | nil => rfl
  | cons c rest =>
    simp only [pyLStrip, List.dropWhile_cons, h c rfl]
    simp

/-- `pyRStrip` is the identity on a string whose last character is not
whitespace. -/
theorem pyRStrip_eq_self {l : List Char}
    (h : ∀ x, l.getLast? = some x → pyIsSpace x = false) : pyRStrip l = l := by
  cases hl : l.getLast? with
  | none =>
    rw [List.getLast?_eq_none_iff] at hl
    subst hl
    rfl
  | some x =>
    have hdecomp : l.dropLast ++ [x] = l := List.dropLast_append_getLast? x hl
    unfold pyRStrip
    rw [← hdecomp, List.reverse_append, List.reverse_singleton, List.singleton_append,
      List.dropWhile_cons, h x hl]
    simp

/-! ## Card-table parsing: claims C6 and C7 -/

/-- A whitespace-free field contains no space. -/
theorem goodField_no_space {f : List Char} (h : goodField f) : ' ' ∉ f :=
  fun m => absurd (h.2 ' ' m) (by decide)

/-- A whitespace-free field contains no newline. -/
theorem goodField_no_newline {f : List Char} (h : goodField f) : '\n' ∉ f :=
  fun m => absurd (h.2 '\n' m) (by decide)

/-- Characters of rendered options are spaces or option characters. -/
theorem mem_renderOpts (c : Char) :
    ∀ opts : List (List Char), c ∈ renderOpts opts →
      c = ' ' ∨ ∃ o ∈ opts, c ∈ o
  | [], h => by simp [renderOpts] at h
  | o :: os, h => by
    simp only [renderOpts, List.mem_cons, List.mem_append] at h
    rcases h with rfl | ho | hr
    · exact Or.inl rfl
    · exact Or.inr ⟨o, List.mem_cons_self o os, ho⟩
    · rcases mem_renderOpts c os hr with rfl | ⟨p, hp, hcp⟩
      · exact Or.inl rfl
      · exact Or.inr ⟨p, List.mem_cons_of_mem o hp, hcp⟩

/-- The last character of a field block `ch ++ renderOpts opts` is a
character of `ch` or of one of the options. -/
theorem renderTail_getLast (ch : List Char) (hch : ch ≠ []) :
    ∀ opts : List (List Char), (∀ o ∈ opts, o ≠ []) →
      ∃ z, (ch ++ renderOpts opts).getLast? = some z ∧
        (z ∈ ch ∨ ∃ o ∈ opts, z ∈ o)
  | [], _ => by
    refine ⟨ch.getLast hch, ?_, Or.inl (List.getLast_mem hch)⟩
    simp only [renderOpts, List.append_nil]
    exact List.getLast?_eq_getLast_of_ne_nil hch
  | o :: os, hne => by
    have hone : o ≠ [] := hne o (List.mem_cons_self o os)
    obtain ⟨z, hz, hmem⟩ :=
      renderTail_getLast o hone os (fun p hp => hne p (List.mem_cons_of_mem o hp))
    refine ⟨z, ?_, ?_⟩
    · have : ch ++ renderOpts (o :: os) = ch ++ ' ' :: (o ++ renderOpts os) := rfl
      rw [this, List.getLast?_append_cons,
        show (' ' :: (o ++ renderOpts os)) = [' '] ++ (o ++ renderOpts os) from rfl,
        List.getLast?_append_of_ne_nil _ (by simp [hone]), hz]
    · rcases hmem with hz | ⟨p, hp, hcp⟩
      · exact Or.inr ⟨o, List.mem_cons_self o os, hz⟩
      · exact Or.inr ⟨p, List.mem_cons_of_mem o hp, hcp⟩

/-- Splitting the field block on spaces yields `ch` as the first segment. -/
theorem splitChar_renderTail {ch : List Char} (hch : ' ' ∉ ch) :
    ∀ opts : List (List Char),
      ∃ tail, splitChar ' ' (ch ++ renderOpts opts) = ch :: tail
  | [] => ⟨[], by simpa [renderOpts] using splitChar_of_not_mem hch⟩
  | o :: os =>
    ⟨splitChar ' ' (o ++ renderOpts os), by
      have : ch ++ renderOpts (o :: os) = ch ++ ' ' :: (o ++ renderOpts os) := rfl
      rw [this, splitChar_append hch]⟩

/-- A well-formed line contains no newline, so the newline split leaves it
intact. -/
theorem newline_not_mem_renderLine {L : LineSpec} (h : wellFormedLine L) :
    '\n' ∉ renderLine L := by
  obtain ⟨_, _, hpn, _, han, _, hf, hv, hc, hopts⟩ := h
  intro hm
  have hflat : '\n' ∈ L.pfx ∨ '\n' ∈ L.addrStr ∨ '\n' = ':' ∨ '\n' ∈ L.func ∨
      '\n' = ' ' ∨ '\n' ∈ L.ver ∨ '\n' ∈ L.ch ∨ '\n' ∈ renderOpts L.opts := by
    unfold renderLine at hm
    simp only [List.mem_append, List.mem_cons] at hm
    tauto
  rcases hflat with hm' | hm' | hm' | hm' | hm' | hm' | hm' | hm'
  · exact hpn hm'
  · exact han hm'
  · exact absurd hm' (by decide)
  · exact goodField_no_newline hf hm'
  · exact absurd hm' (by decide)
  · exact goodField_no_newline hv hm'
  · exact goodField_no_newline hc hm'
  · rcases mem_renderOpts '\n' L.opts hm' with hsp | ⟨p, hp, hcp⟩
    · exact absurd hsp (by decide)
    · exact goodField_no_newline (hopts p hp) hcp

/-- Parsing a rendered well-formed line recovers its components. -/
theorem parse_renderLine {L : LineSpec} (h : wellFormedLine L) :
    parse_card_line (renderLine L) = some (lineCard L) := by
  obtain ⟨hlen, hpc, _, hac, _, hint, hf, hv, hc, hopts⟩ := h
  have hpre : ':' ∉ L.pfx ++ L.addrStr := by
    intro hm
    rcases List.mem_append.mp hm with hm | hm
    exacts [hpc hm, hac hm]
  have hsplit : splitOnce ':' (renderLine L) =
      [L.pfx ++ L.addrStr,
       L.func ++ ' ' :: (L.ver ++ ' ' :: (L.ch ++ renderOpts L.opts))] :=
    splitOnce_append hpre
  rw [parse_card_line_eq _ _ _ hsplit]
  have hdrop : (L.pfx ++ L.addrStr).drop 3 = L.addrStr := by
    rw [← hlen]
    exact List.drop_left _ _
  rw [hdrop, hint]
  have hlstrip :
      pyLStrip (L.func ++ ' ' :: (L.ver ++ ' ' :: (L.ch ++ renderOpts L.opts))) =
        L.func ++ ' ' :: (L.ver ++ ' ' :: (L.ch ++ renderOpts L.opts)) := by
    apply pyLStrip_eq_self
    intro x hx
    cases hfl : L.func with
    | nil => exact absurd hfl hf.1
    | cons f0 ftl =>
      rw [hfl, List.cons_append, List.head?_cons, Option.some.injEq] at hx
      exact hx ▸ hf.2 f0 (hfl ▸ List.mem_cons_self f0 ftl)
  have hT : L.func ++ ' ' :: (L.ver ++ ' ' :: (L.ch ++ renderOpts L.opts)) =
      (L.func ++ ' ' :: L.ver ++ [' ']) ++ (L.ch ++ renderOpts L.opts) := by
    simp
  have hrstrip :
      pyRStrip (L.func ++ ' ' :: (L.ver ++ ' ' :: (L.ch ++ renderOpts L.opts))) =
        L.func ++ ' ' :: (L.ver ++ ' ' :: (L.ch ++ renderOpts L.opts)) := by
    apply pyRStrip_eq_self
    intro x hx
    obtain ⟨z, hz, hmem⟩ :=
      renderTail_getLast L.ch hc.1 L.opts (fun o ho => (hopts o ho).1)
    rw [hT, List.getLast?_append_of_ne_nil _
      (by simp [hc.1]), hz, Option.some.injEq] at hx
    subst hx
    rcases hmem with hm | ⟨p, hp, hcp⟩
    · exact hc.2 z hm
    · exact (hopts p hp).2 z hcp
  have hstrip :
      pyStrip (L.func ++ ' ' :: (L.ver ++ ' ' :: (L.ch ++ renderOpts L.opts))) =
        L.func ++ ' ' :: (L.ver ++ ' ' :: (L.ch ++ renderOpts L.opts)) := by
    unfold pyStrip
    rw [hlstrip, hrstrip]
  rw [hstrip]
  obtain ⟨tail, htail⟩ := splitChar_renderTail (goodField_no_space hc) L.opts
  rw [splitChar_append (goodField_no_space hf),
    splitChar_append (goodField_no_space hv), htail]
  rfl

/-- Parsing a rendered block of well-formed lines succeeds entry by entry. -/
theorem parse_cards_map_renderLine :
    ∀ Ls : List LineSpec, (∀ L ∈ Ls, wellFormedLine L) →
      parse_cards (Ls.map renderLine) = some (Ls.map lineCard)
  | [], _ => rfl
  | L :: Ls, h => by
    have h1 := parse_renderLine (h L (List.mem_cons_self L Ls))
    have h2 := parse_cards_map_renderLine Ls (fun x hx => h x (List.mem_cons_of_mem L hx))
    simp only [List.map_cons, parse_cards, h1, h2]

/-- Claim C6: card-table parsing round-trips on well-formed input — for
every non-empty block of correctly formatted lines, the parsed table has
exactly one entry per line, in input order, with address, function,
version and character matching that line's fields. -/
theorem c6_card_table_roundtrip (Ls : List LineSpec) (hne : Ls ≠ [])
    (hwf : ∀ L ∈ Ls, wellFormedLine L) :
    get_cards (pyJoin ['\n'] (Ls.map renderLine)) = some (Ls.map lineCard) ∧
    (Ls.map lineCard).length = Ls.length := by
  refine ⟨?_, by simp⟩
  unfold get_cards
  rw [splitChar_pyJoin (Ls.map renderLine) (by simpa using hne) ?hnl]
  case hnl =>
    intro p hp
    obtain ⟨L, hL, rfl⟩ := List.mem_map.mp hp
    exact newline_not_mem_renderLine (hwf L hL)
  exact parse_cards_map_renderLine Ls hwf

/-- Witness for C6: a concrete two-line block parses to the two matching
entries. -/
theorem c6_witness :
    (∀ L ∈ [sample_line1, sample_line2], wellFormedLine L) ∧
    get_cards (pyJoin ['\n'] ([sample_line1, sample_line2].map renderLine)) =
      some [lineCard sample_line1, lineCard sample_line2] ∧
    ([sample_line1, sample_line2].map lineCard).length = 2 := by
  refine ⟨by decide, ?_, by decide⟩
  have h := (c6_card_table_roundtrip [sample_line1, sample_line2]
    (by decide) (by decide)).1
  simpa using h

/-- A parse failure on any line aborts the whole card parse. -/
theorem parse_cards_none :
    ∀ (lines : List (List Char)) (l : List Char), l ∈ lines →
      parse_card_line l = none → parse_cards lines = none
  | [], l, hl, _ => absurd hl (List.not_mem_nil l)
  | x :: xs, l, hl, hn => by
    rcases List.mem_cons.mp hl with rfl | hx
    · simp only [parse_cards, hn]
    · simp only [parse_cards]
      cases hp : parse_card_line x with
      | none => rfl
      | some c => rw [parse_cards_none xs l hx hn]

/-- Claim C7: card-table parsing fails atomically — if any line of the
response block is malformed (missing colon, or fewer than three
space-separated fields after the colon), the whole parse yields nothing;
no partial table exists. -/
theorem c7_card_table_atomic (response : List Char)
    (h : ∃ l ∈ splitChar '\n' response, (':' ∉ l) ∨
      (∃ a rest, splitOnce ':' l = [a, rest] ∧
        (splitChar ' ' (pyStrip rest)).length < 3)) :
    get_cards response = none := by
  obtain ⟨l, hl, hbad⟩ := h
  have hnone : parse_card_line l = none := by
    rcases hbad with hb | ⟨a, rest, hsp, hlen⟩
    · unfold parse_card_line
      rw [splitOnce_of_not_mem hb]
    · rw [parse_card_line_eq l a rest hsp]
      cases hi : pyInt (a.drop 3) with
      | none => rfl
      | some addr =>
        cases hs : splitChar ' ' (pyStrip rest) with
        | nil => rfl
        | cons f t1 =>
          cases t1 with
          | nil => rfl
          | cons v t2 =>
            cases t2 with
            | nil => rfl
            | cons ch t3 =>
              rw [hs] at hlen
              simp at hlen
              omega
  exact parse_cards_none (splitChar '\n' response) l hl hnone

/-- Witness for C7: a block whose second line lacks a colon parses to
nothing. -/
theorem c7_witness :
    (':' ∉ str "badline") ∧
    get_cards (str "At 1:XYM 9.2l TAG\nbadline") = none :=
  ⟨by decide,
    c7_card_table_atomic (str "At 1:XYM 9.2l TAG\nbadline")
      ⟨str "badline", by decide, Or.inl (by decide)⟩⟩
